import Mathlib

/-!
Verification of the boulder storage-authority core (`sa/sa.go`).

This file gives a shallow embedding of the transactional authorization
lifecycle, issuance ledger, rate-limit counters, IP range codec and
name-set digest of `src/sa/sa.go`, and proves or refutes the frozen
claims about them.

Machine integers are embedded as `Nat`/`Int`; SQL tables are embedded as
Lean lists of row structures; a database transaction is embedded as a
function returning either the committed new state or a rollback carrying
the error and the untouched original state (a gorp transaction discards
all uncommitted writes on rollback).  A possible mid-transaction storage
failure of each individual write statement is embedded through an
explicit fault oracle: a list of booleans consumed one per write, `true`
meaning that write fails.  Functions of the repository that are not part
of the given sources (`sa/authz.go`, `sa/model.go`, the `core` package)
are modelled from the spec and carry a doc comment saying so.
-/

namespace Boulder

/-! ## Definitions: the embedded data model and operations -/

/-- The highest possible `net.IP`, `ffff:ffff:ffff:ffff:ffff:ffff:ffff:ffff`,
as a natural number. -/
def ipMax : Nat := 2 ^ 128 - 1

/-- Embedding of `incrementIP` from `sa/sa.go`: the 16-byte
address is read as a big-endian integer, `1 <<< (128 - index)` is added, and if
the sum no longer fits in 16 bytes (`len(resultBytes) > 16`) the highest
possible address is returned instead. -/
def incrementIP (ip : Nat) (index : Nat) : Nat :=
  let r := ip + 2 ^ (128 - index)
  if 2 ^ 128 ≤ r then ipMax else r

/-- Embedding of `ip.Mask(net.CIDRMask(ones, 128))`: keep the top
`ones` bits of the 128-bit address, zero the rest. -/
def maskCIDR (ip : Nat) (ones : Nat) : Nat :=
  ip / 2 ^ (128 - ones) * 2 ^ (128 - ones)

/-- Embedding of `ip.To4() != nil` for a 16-byte address: the address is
an IPv4-mapped one, i.e. its upper 12 bytes are `00 … 00 ff ff`. -/
def isIPv4 (ip : Nat) : Bool := ip / 2 ^ 32 = 0xffff

/-- Embedding of `ipRange` from `sa/sa.go`: mask length 48 for IPv6, 128 for IPv4; the lower
bound is the masked address and the upper bound is `incrementIP` of it. -/
def ipRange (ip : Nat) : Nat × Nat :=
  let maskLength : Nat := if isIPv4 ip then 128 else 48
  let beginIP := maskCIDR ip maskLength
  (beginIP, incrementIP beginIP maskLength)

/-- Modelled from the spec: `authorizationTables` lives in `sa/authz.go`, which
is not among the sources; the spec and the in-source callers
(`RevokeAuthorizationsByDomain`, `CountPendingAuthorizations`,
`FinalizeAuthorization`) fix it as the legacy table followed by the unified
table. -/
def authorizationTables : List String := ["pendingAuthorizations", "authz"]

/-- The per-table loop of `CountPendingAuthorizations`.  The `query` argument
abstracts the `SELECT COUNT(1) …` issued for one table; on a query error the
source does `return int(count), nil`, i.e. it stops and reports the count
accumulated so far with a nil error. -/
def countPendingGo (query : String → Except String Int) :
    List String → Int → Int × Option String
  | [], count => (count, none)
  | t :: ts, count =>
    match query t with
    | .error _ => (count, none)
    | .ok n => countPendingGo query ts (count + n)

/-- Embedding of `CountPendingAuthorizations` from `sa/sa.go`, with the per-table count
query abstracted as an oracle.  The second component is the returned error. -/
def CountPendingAuthorizations (query : String → Except String Int) :
    Int × Option String :=
  countPendingGo query authorizationTables 0

/-- Modelled from the spec: `strings.ToLower` applied to a name, as used by the
normalisation in `core.UniqueLowerNames` (the `core` package is not among the
sources).  Each character is lower-cased. -/
def lowerName (s : String) : String := ⟨s.data.map Char.toLower⟩

/-- Lexicographic comparison of character lists by code point, the order
`sort.Strings` uses on ASCII domain names. -/
def leChars : List Char → List Char → Bool
  | [], _ => true
  | _ :: _, [] => false
  | a :: as, b :: bs =>
    if a.toNat < b.toNat then true
    else if b.toNat < a.toNat then false
    else leChars as bs

/-- Lexicographic comparison of strings, used to sort the canonical name list. -/
def leString (a b : String) : Bool := leChars a.data b.data

/-- Insert a string into a sorted list of strings. -/
def insertStr (s : String) : List String → List String
  | [] => [s]
  | t :: ts => if leString s t then s :: t :: ts else t :: insertStr s ts

/-- Sort a list of strings by `leString` (insertion sort, standing in for
`sort.Strings`). -/
def sortStrings : List String → List String
  | [] => []
  | s :: ss => insertStr s (sortStrings ss)

/-- Modelled from the spec: `core.UniqueLowerNames` lower-cases every name,
removes duplicates, and returns the result in a deterministic (sorted) order,
so that two calls with the same set of names yield the same canonical list. -/
def UniqueLowerNames (names : List String) : List String :=
  sortStrings ((names.map lowerName).dedup)

/-- Embedding of `strings.Join(names, ",")` on the canonical list. -/
def joinComma : List String → String
  | [] => ""
  | [s] => s
  | s :: rest => s ++ "," ++ joinComma rest

/-- Embedding of `hashNames` from `sa/sa.go`: the SHA-256 digest (consumed as an opaque
hash function, an exclusion the spec makes) of the comma-joined canonical
name list. -/
def hashNames (sha256 : String → Nat) (names : List String) : Nat :=
  sha256 (joinComma (UniqueLowerNames names))

/-- Embedding of `core.AcmeStatus`. -/
inductive AcmeStatus where
  | unknown
  | pending
  | processing
  | valid
  | invalid
  | revoked
  | deactivated
deriving DecidableEq, Repr

/-- Embedding of `core.Challenge`, restricted to the fields the store reads or writes:
the row ID (0 when not yet stored), the type and the token. -/
structure Challenge where
  id : Nat
  challengeType : String
  token : String
deriving DecidableEq, Repr

/-- Embedding of `core.Authorization`, restricted to the fields the store reads or writes. -/
structure Authorization where
  id : String
  registrationID : Int
  status : AcmeStatus
  challenges : List Challenge
deriving DecidableEq, Repr

/-- One row of `pendingAuthorizations` or of `authz`. -/
structure AuthzRow where
  id : String
  registrationID : Int
  status : AcmeStatus
deriving DecidableEq, Repr

/-- One row of the challenges table. -/
structure ChallRow where
  id : Nat
  authorizationID : String
  challengeType : String
  token : String
deriving DecidableEq, Repr

/-- The authorization-store state: the legacy table, the unified table, the
challenges table, and the next auto-increment challenge primary key. -/
structure DB where
  pendingAuthorizations : List AuthzRow
  authz : List AuthzRow
  challenges : List ChallRow
  nextChallID : Nat
deriving DecidableEq, Repr

/-- The scalar row written for an authorization (`authzModel` /
`pendingauthzModel` both serialise these columns). -/
def rowOfAuthz (a : Authorization) : AuthzRow :=
  { id := a.id, registrationID := a.registrationID, status := a.status }

/-- Modelled from the spec: `challengeToModel` (in `sa/model.go`, not among the
sources) converts a challenge to its row for a given owning authorization. -/
def challengeToModel (c : Challenge) (authID : String) : ChallRow :=
  { id := c.id, authorizationID := authID,
    challengeType := c.challengeType, token := c.token }

/-- Modelled from the spec: `modelToChallenge` (in `sa/model.go`, not among
the sources) converts a stored challenge row back to a challenge. -/
def modelToChallenge (r : ChallRow) : Challenge :=
  { id := r.id, challengeType := r.challengeType, token := r.token }

/-- Outcome of one transaction: either the commit produced a new state, or
the transaction was rolled back with an error, leaving the original state
(`Rollback(tx, err)` discards every uncommitted write). -/
inductive TxResult where
  | committed : DB → TxResult
  | rolledBack : String → DB → TxResult
deriving DecidableEq, Repr

/-- The fault oracle: each write statement of a transaction consumes one
entry; `true` means the storage layer fails that write. An exhausted oracle
means no further faults. -/
abbrev Faults := List Bool

/-- Consume one fault-oracle entry. -/
def takeFault : Faults → Bool × Faults
  | [] => (false, [])
  | b :: bs => (b, bs)

/-- No injected storage faults. -/
def noFaults : Faults := []

/-- Modelled from the spec: `statusIsPending` (in `sa/authz.go`, not among the
sources).  The Update/Finalize contracts of the spec say a record or target "is
pending"; the stored status `pending` is the pending one. -/
def statusIsPending (s : AcmeStatus) : Bool :=
  match s with
  | .pending => true
  | _ => false

/-- Modelled from the spec: `getAuthz` (in `sa/authz.go`, not among the
sources) is the tagged lookup over the two storage locations: it searches the
legacy table first, then the unified table, and returns the row together with
its location tag.  The tags must be the literal table names
`"pendingAuthorizations"` and `"authz"`: the in-source callers
`FinalizeAuthorization` (comparing against these strings) and
`DeactivateAuthorization` (splicing the tag into SQL as the table name)
require exactly them. -/
def getAuthz (db : DB) (id : String) : Except String (AuthzRow × String) :=
  match db.pendingAuthorizations.find? (fun r => r.id = id) with
  | some r => .ok (r, "pendingAuthorizations")
  | none =>
    match db.authz.find? (fun r => r.id = id) with
    | some r => .ok (r, "authz")
    | none => .error "authorization not found"

/-- Modelled from the spec: `authzIdExists` (in `sa/authz.go`, not among the
sources) checks whether any record in either storage location has the ID. -/
def authzIdExists (db : DB) (id : String) : Bool :=
  (db.pendingAuthorizations.find? (fun r => r.id = id)).isSome ||
    (db.authz.find? (fun r => r.id = id)).isSome

/-- The logical status of the (single) record with a given ID, looking at the
legacy location first as `getAuthz` does. -/
def statusOf (db : DB) (id : String) : Option AcmeStatus :=
  match db.pendingAuthorizations.find? (fun r => r.id = id) with
  | some r => some r.status
  | none => (db.authz.find? (fun r => r.id = id)).map (fun r => r.status)

/-- Well-formedness of a store state: no ID occurs twice across the two
authorization tables, and no challenge row ID occurs twice. -/
def wfDB (db : DB) : Prop :=
  ((db.pendingAuthorizations.map (fun r => r.id)) ++
      (db.authz.map (fun r => r.id))).Nodup ∧
    (db.challenges.map (fun r => r.id)).Nodup

/-- Embedding of a gorp `Update` on an authorization table: replace the row whose primary
key matches. -/
def updateAuthzTable (rows : List AuthzRow) (r : AuthzRow) : List AuthzRow :=
  rows.map (fun x => if x.id = r.id then r else x)

/-- Embedding of a gorp `Update` on the challenges table: replace the row whose primary key
matches. -/
def updateChallTable (rows : List ChallRow) (r : ChallRow) : List ChallRow :=
  rows.map (fun x => if x.id = r.id then r else x)

/-- Inner loop of `updateChallenges` from `sa/sa.go`: each supplied challenge is
written over the stored row at the same position, keeping the ID of the stored row
and owning authorization.  Each write consumes one fault-oracle entry. -/
def updateChallGo : Faults → List ChallRow → List (Challenge × ChallRow) →
    Except String (List ChallRow × Faults)
  | fs, rows, [] => .ok (rows, fs)
  | fs, rows, (c, stored) :: rest =>
    match takeFault fs with
    | (true, _) => .error "storage error: challenge update failed"
    | (false, fs') =>
      updateChallGo fs'
        (updateChallTable rows
          { challengeToModel c stored.authorizationID with id := stored.id })
        rest

/-- Embedding of `updateChallenges` from `sa/sa.go`: select the stored challenge rows of
the authorization, fail with the validation error when the supplied list has
a different length, otherwise rewrite each row pairwise. -/
def updateChallenges (authID : String) (challenges : List Challenge)
    (fs : Faults) (rows : List ChallRow) : Except String (List ChallRow × Faults) :=
  let challs := rows.filter (fun r => r.authorizationID = authID)
  if challs.length ≠ challenges.length then
    .error "Invalid number of challenges provided"
  else
    updateChallGo fs rows (challenges.zip challs)

/-- Pure (fault-free) form of the `updateChallenges` write loop. -/
def applyChallUpdates (rows : List ChallRow) :
    List (Challenge × ChallRow) → List ChallRow
  | [] => rows
  | (c, stored) :: rest =>
    applyChallUpdates
      (updateChallTable rows
        { challengeToModel c stored.authorizationID with id := stored.id })
      rest

/-- The net effect of a fault-free `updateChallenges` run on the challenges
table. -/
def challsAfterUpdate (rows : List ChallRow) (authID : String)
    (cs : List Challenge) : List ChallRow :=
  applyChallUpdates rows (cs.zip (rows.filter (fun r => r.authorizationID = authID)))

/-- Common tail of `FinalizeAuthorization` and `UpdatePendingAuthorization`:
after the authorization-row write produced the working state `db2`, run the
challenge rewrite; on its failure roll back to the original state `db`,
otherwise commit `db2` with the rewritten challenges table. -/
def commitChalls (db2 db : DB) (r : Except String (List ChallRow × Faults)) :
    TxResult :=
  match r with
  | .error e => .rolledBack e db
  | .ok (rows, _) => .committed { db2 with challenges := rows }

/-- Embedding of `FinalizeAuthorization` from `sa/sa.go`.  After the status guards, a
record found in the legacy table is moved (insert into `authz`, delete from
`pendingAuthorizations`) and a record found in the unified table is updated
in place; in both cases the challenge rows are then rewritten.  Every failure
rolls the transaction back, returning the original state. -/
def FinalizeAuthorization (fs : Faults) (db : DB) (authz : Authorization) :
    TxResult :=
  match getAuthz db authz.id with
  | .error e => .rolledBack e db
  | .ok (dbAuthz, table) =>
    if ¬ statusIsPending dbAuthz.status then
      .rolledBack "Cannot finalize an authorization that is not pending" db
    else if statusIsPending authz.status then
      .rolledBack "Cannot finalize an authorization to a non-final status" db
    else if table = "pendingAuthorizations" then
      match takeFault fs with
      | (true, _) => .rolledBack "storage error: insert into authz failed" db
      | (false, fs1) =>
        let db1 : DB := { db with authz := db.authz ++ [rowOfAuthz authz] }
        match takeFault fs1 with
        | (true, _) =>
          .rolledBack "storage error: delete from pendingAuthorizations failed" db
        | (false, fs2) =>
          let db2 : DB :=
            { db1 with pendingAuthorizations :=
                db1.pendingAuthorizations.filter (fun r => ¬ r.id = dbAuthz.id) }
          commitChalls db2 db (updateChallenges authz.id authz.challenges fs2 db2.challenges)
    else if table = "authz" then
      match takeFault fs with
      | (true, _) => .rolledBack "storage error: update authz failed" db
      | (false, fs1) =>
        let db1 : DB := { db with authz := updateAuthzTable db.authz (rowOfAuthz authz) }
        commitChalls db1 db (updateChallenges authz.id authz.challenges fs1 db1.challenges)
    else
      .rolledBack "Internal error finalizing authz from unknown table" db

/-- Embedding of `UpdatePendingAuthorization` from `sa/sa.go`.  Note: the legacy-table
branch compares the location tag against the literal `"pendingAuthorization"`
— without the trailing `s` — exactly as the source does on line 569; the tag
produced for the legacy table is `"pendingAuthorizations"`, so a record found
there falls through to the final `else`. -/
def UpdatePendingAuthorization (fs : Faults) (db : DB) (authz : Authorization) :
    TxResult :=
  if ¬ statusIsPending authz.status then
    .rolledBack "Use FinalizeAuthorization() to update to a final status" db
  else
    match getAuthz db authz.id with
    | .error e => .rolledBack e db
    | .ok (dbAuthz, table) =>
      if ¬ statusIsPending dbAuthz.status then
        .rolledBack "Cannot update a non-pending authorization" db
      else if table = "pendingAuthorization" then
        match takeFault fs with
        | (true, _) =>
          .rolledBack "storage error: update pendingAuthorizations failed" db
        | (false, fs1) =>
          let db1 : DB :=
            { db with pendingAuthorizations :=
                updateAuthzTable db.pendingAuthorizations (rowOfAuthz authz) }
          commitChalls db1 db (updateChallenges authz.id authz.challenges fs1 db1.challenges)
      else if table = "authz" then
        match takeFault fs with
        | (true, _) => .rolledBack "storage error: update authz failed" db
        | (false, fs1) =>
          let db1 : DB := { db with authz := updateAuthzTable db.authz (rowOfAuthz authz) }
          commitChalls db1 db (updateChallenges authz.id authz.challenges fs1 db1.challenges)
      else
        .rolledBack "Internal error. Table mismatch updating authz" db

/-- The conditional update of `DeactivateAuthorization` (set the status to
deactivated where the id matches and the status is still pending or valid),
over one table. -/
def conditionalDeactivate (rows : List AuthzRow) (id : String) : List AuthzRow :=
  rows.map (fun r =>
    if r.id = id ∧ (r.status = .pending ∨ r.status = .valid) then
      { r with status := .deactivated }
    else r)

/-- Embedding of `DeactivateAuthorization` from `sa/sa.go`: success without any write when
the current status is neither pending nor valid, otherwise a conditional
update of the row in the table `getAuthz` located it in. -/
def DeactivateAuthorization (fs : Faults) (db : DB) (id : String) : TxResult :=
  match getAuthz db id with
  | .error e => .rolledBack e db
  | .ok (authz, table) =>
    if authz.status ≠ .pending ∧ authz.status ≠ .valid then
      .committed db
    else
      match takeFault fs with
      | (true, _) => .rolledBack "storage error: conditional update failed" db
      | (false, _) =>
        if table = "pendingAuthorizations" then
          .committed
            { db with pendingAuthorizations :=
                conditionalDeactivate db.pendingAuthorizations id }
        else if table = "authz" then
          .committed { db with authz := conditionalDeactivate db.authz id }
        else
          .rolledBack "SQL error: unknown table" db

/-- The ID-generation loop of `NewPendingAuthorization`: try the successive
outputs of `core.NewToken` (given here as an explicit stream) until one
matches no existing record in either storage location.  The source loops
until it finds one; the exhausted-stream case surfaces as the InternalError
the spec gives for ID generation. -/
def pickFreshID (db : DB) : List String → Option String
  | [] => none
  | t :: ts => if authzIdExists db t then pickFreshID db ts else some t

/-- The challenge-insert loop of `NewPendingAuthorization`: each challenge row
gets the auto-increment primary key, and the challenge returned to the caller
carries that ID.  Returns the new challenges table, the next auto-increment
key, and the challenges with IDs populated. -/
def insertChallGo : Faults → List ChallRow → Nat → String → List Challenge →
    Except String (List ChallRow × Nat × List Challenge × Faults)
  | fs, rows, nextID, _, [] => .ok (rows, nextID, [], fs)
  | fs, rows, nextID, authID, c :: cs =>
    match takeFault fs with
    | (true, _) => .error "storage error: insert challenge failed"
    | (false, fs1) =>
      let row : ChallRow := { challengeToModel c authID with id := nextID }
      match insertChallGo fs1 (rows ++ [row]) (nextID + 1) authID cs with
      | .error e => .error e
      | .ok (rows2, nextID2, cs2, fs2) =>
        .ok (rows2, nextID2, modelToChallenge row :: cs2, fs2)

/-- Tail of `NewPendingAuthorization`: commit the result of the
challenge-insert loop, or roll back to the original state on its failure. -/
def commitNewPending (db : DB) (authz1 : Authorization)
    (r : Except String (List ChallRow × Nat × List Challenge × Faults)) :
    TxResult × Option Authorization :=
  match r with
  | .error e => (.rolledBack e db, none)
  | .ok (rows, nextID, challs, _) =>
    (.committed
      { db with authz := db.authz ++ [rowOfAuthz authz1],
                challenges := rows, nextChallID := nextID },
      some { authz1 with challenges := challs })

/-- Embedding of `NewPendingAuthorization` from `sa/sa.go`: pick a fresh random ID, force
the status to pending, insert the authorization row into the unified table
and one row per challenge, all in one transaction; on success return the
stored authorization with challenge IDs populated. -/
def NewPendingAuthorization (fs : Faults) (tokens : List String) (db : DB)
    (authz : Authorization) : TxResult × Option Authorization :=
  match pickFreshID db tokens with
  | none => (.rolledBack "Internal error: ID generation cannot complete" db, none)
  | some newID =>
    let authz1 : Authorization := { authz with id := newID, status := .pending }
    match takeFault fs with
    | (true, _) => (.rolledBack "storage error: insert authz failed" db, none)
    | (false, fs1) =>
      commitNewPending db authz1
        (insertChallGo fs1 db.challenges db.nextChallID newID authz1.challenges)

/-- Split a character list at the dots. -/
def splitDots : List Char → List (List Char)
  | [] => [[]]
  | c :: cs =>
    let rest := splitDots cs
    if c = '.' then [] :: rest
    else
      match rest with
      | [] => [[c]]
      | l :: ls => (c :: l) :: ls

/-- Join label character lists with dots. -/
def joinDots : List (List Char) → List Char
  | [] => []
  | [l] => l
  | l :: ls => l ++ '.' :: joinDots ls

/-- Modelled from the spec: `core.ReverseName` (the `core` package is not
among the sources) stores a domain with its dot-separated labels in reverse
order, to make subdomain range queries efficient. -/
def ReverseName (domain : String) : String :=
  ⟨joinDots (splitDots domain.data).reverse⟩

/-- Character-list prefix test. -/
def charsStart : List Char → List Char → Bool
  | _, [] => true
  | [], _ :: _ => false
  | a :: as, b :: bs => a = b && charsStart as bs

/-- Test that `s` starts with `pre` (the SQL pattern `LIKE CONCAT(x, ".%")`
used with the reversed-name index). -/
def strStartsWith (s pre : String) : Bool :=
  charsStart s.data pre.data

/-- The fields `AddCertificate` reads from the result of
`x509.ParseCertificate` (parsing is consumed as an opaque decoder, an
exclusion the spec makes).
The serial number stands in for its canonical string form
(`core.SerialToString` is an injective encoding). -/
structure ParsedCert where
  serialNumber : Nat
  notBefore : Int
  notAfter : Int
  dnsNames : List String
deriving DecidableEq, Repr

/-- One row of `certificates`.  `der` is the raw encoded certificate and
`digest` its fingerprint, both abstracted as numbers. -/
structure CertRow where
  registrationID : Int
  serial : Nat
  digest : Nat
  der : Nat
  issued : Int
  expires : Int
deriving DecidableEq, Repr

/-- One row of `certificateStatus`. -/
structure CertStatusRow where
  serial : Nat
  subscriberApproved : Bool
  status : String
  ocspLastUpdated : Int
  revokedDate : Int
  revokedReason : Int
  lockCol : Int
deriving DecidableEq, Repr

/-- One row of `issuedNames`. -/
structure IssuedNameRow where
  reversedName : String
  serial : Nat
  notBefore : Int
deriving DecidableEq, Repr

/-- One row of `fqdnSets`. -/
structure FQDNSetRow where
  setHash : Nat
  serial : Nat
  issued : Int
  expires : Int
deriving DecidableEq, Repr

/-- The issuance-ledger state: the four tables `AddCertificate` writes. -/
structure CertDB where
  certificates : List CertRow
  certificateStatus : List CertStatusRow
  issuedNames : List IssuedNameRow
  fqdnSets : List FQDNSetRow
deriving DecidableEq, Repr

/-- Outcome of `AddCertificate`: a decode failure before any transaction, a
rollback leaving the original state, or a commit returning the digest and the
new state. -/
inductive CertResult where
  | parseError : CertResult
  | rolledBack : String → CertDB → CertResult
  | committed : Nat → CertDB → CertResult
deriving DecidableEq, Repr

/-- The issued-name rows `addIssuedNames` generates for a certificate: one per
subject name, with the name reversed. -/
def issuedNameRows (cert : ParsedCert) : List IssuedNameRow :=
  cert.dnsNames.map (fun n =>
    { reversedName := ReverseName n, serial := cert.serialNumber,
      notBefore := cert.notBefore })

/-- Embedding of `addIssuedNames` from `sa/sa.go`.  The source builds one SQL statement
`INSERT INTO issuedNames (…) VALUES (?, ?, ?), …` with one group per subject
name; for a certificate with no subject names the generated statement is
`INSERT INTO issuedNames (…) VALUES ;`, which the database rejects as a
syntax error, so the call fails. -/
def addIssuedNames (rows : List IssuedNameRow) (cert : ParsedCert) :
    Except String (List IssuedNameRow) :=
  if cert.dnsNames.isEmpty then
    .error "SQL syntax error: empty VALUES list"
  else
    .ok (rows ++ issuedNameRows cert)

/-- The `certificateStatus` row `AddCertificate` inserts: status good, no
revocation fields set. -/
def initialCertStatus (serial : Nat) : CertStatusRow :=
  { serial := serial, subscriberApproved := false, status := "good",
    ocspLastUpdated := 0, revokedDate := 0, revokedReason := 0, lockCol := 0 }

/-- Tail of `AddCertificate`: take the issued-names insert result, then
insert the FQDN-set row; on any failure roll back to the original state. -/
def commitIssuedNames (db db2 : CertDB) (fs3 : Faults) (digest : Nat)
    (fq : FQDNSetRow) (r : Except String (List IssuedNameRow)) : CertResult :=
  match r with
  | .error e => .rolledBack e db
  | .ok issued =>
    let db3 : CertDB := { db2 with issuedNames := issued }
    match takeFault fs3 with
    | (true, _) => .rolledBack "storage error: insert fqdnSet failed" db
    | (false, _) => .committed digest { db3 with fqdnSets := db3.fqdnSets ++ [fq] }

/-- Embedding of `AddCertificate` from `sa/sa.go`.  The `parse` argument abstracts
`x509.ParseCertificate` over the encoded bytes, `fingerprint` abstracts
`core.Fingerprint256`, and `sha256` the digest primitive inside `hashNames`;
`now` is the injected clock.  Within one transaction it inserts the
certificate row, the initial status row, the issued-name rows and the
FQDN-set row; any failure rolls everything back. -/
def AddCertificate (parse : Nat → Option ParsedCert) (fingerprint : Nat → Nat)
    (sha256 : String → Nat) (fs : Faults) (db : CertDB) (certDER : Nat)
    (regID : Int) (now : Int) : CertResult :=
  match parse certDER with
  | none => .parseError
  | some parsed =>
    let digest := fingerprint certDER
    let serial := parsed.serialNumber
    let cert : CertRow :=
      { registrationID := regID, serial := serial, digest := digest,
        der := certDER, issued := now, expires := parsed.notAfter }
    match takeFault fs with
    | (true, _) => .rolledBack "storage error: insert certificate failed" db
    | (false, fs1) =>
      let db1 : CertDB := { db with certificates := db.certificates ++ [cert] }
      match takeFault fs1 with
      | (true, _) => .rolledBack "storage error: insert certificateStatus failed" db
      | (false, fs2) =>
        let db2 : CertDB :=
          { db1 with certificateStatus :=
              db1.certificateStatus ++ [initialCertStatus serial] }
        match takeFault fs2 with
        | (true, _) => .rolledBack "storage error: issuedNames insert failed" db
        | (false, fs3) =>
          commitIssuedNames db db2 fs3 digest
            { setHash := hashNames sha256 parsed.dnsNames,
              serial := serial, issued := parsed.notBefore,
              expires := parsed.notAfter }
            (addIssuedNames db2.issuedNames parsed)

/-- Embedding of `countCertificatesByName` from `sa/sa.go`, for one domain over the
`issuedNames` table.  The source declares `var count int64`, never assigns
it, selects up to 10001 matching serials, compares the *unassigned* `count`
against the cap, and otherwise returns the number of distinct serials
fetched.  The second component is the returned error. -/
def countCertificatesByName (issued : List IssuedNameRow) (domain : String)
    (earliest latest : Int) : Int × Option String :=
  let count : Int := 0
  let maxCount : Int := 10000
  let matching := issued.filter (fun r =>
    (r.reversedName = ReverseName domain ||
        strStartsWith r.reversedName (ReverseName domain ++ ".")) &&
      earliest < r.notBefore && r.notBefore ≤ latest)
  let serials := (matching.take 10001).map (fun r => r.serial)
  if count > maxCount then
    (maxCount, some ("More than 10000 issuedName entries for " ++ domain))
  else
    ((serials.dedup.length : Int), none)

/-- A query oracle for which the legacy-table count succeeds with 3 and the
unified-table count fails. -/
def queryC10 : String → Except String Int := fun t =>
  if t = "pendingAuthorizations" then .ok 3 else .error "connection lost"

/-- 10001 issued-name rows for `example.com`, all with distinct serials and
`notBefore` inside the window `(0, 2]`. -/
def overflowRows : List IssuedNameRow :=
  (List.range 10001).map (fun i =>
    { reversedName := "com.example", serial := i, notBefore := 1 })

/-- A store with one pending legacy-table authorization owning one challenge
row. -/
def dbC1 : DB :=
  { pendingAuthorizations :=
      [{ id := "legacy1", registrationID := 7, status := .pending }],
    authz := [],
    challenges :=
      [{ id := 3, authorizationID := "legacy1", challengeType := "http-01",
         token := "tok" }],
    nextChallID := 4 }

/-- A finalize request moving the record of `dbC1` to status valid. -/
def aC1 : Authorization :=
  { id := "legacy1", registrationID := 7, status := .valid,
    challenges := [{ id := 3, challengeType := "http-01", token := "tok2" }] }

/-- A store whose single record, a pending authorization with no challenges,
lives in the legacy `pendingAuthorizations` table. -/
def dbC2 : DB :=
  { pendingAuthorizations :=
      [{ id := "legacy1", registrationID := 1, status := .pending }],
    authz := [], challenges := [], nextChallID := 1 }

/-- A perfectly well-formed update of that record: pending status, matching
(zero) challenge count. -/
def aC2 : Authorization :=
  { id := "legacy1", registrationID := 1, status := .pending, challenges := [] }

/-- A store with a pending legacy-table authorization owning one challenge
row. -/
def dbC3L : DB :=
  { pendingAuthorizations :=
      [{ id := "L", registrationID := 1, status := .pending }],
    authz := [],
    challenges :=
      [{ id := 1, authorizationID := "L", challengeType := "http-01",
         token := "t" }],
    nextChallID := 2 }

/-- An update of the record of `dbC3L` supplying zero challenges (stored: one). -/
def aC3L : Authorization :=
  { id := "L", registrationID := 1, status := .pending, challenges := [] }

/-- A store with a pending unified-table authorization owning one challenge
row. -/
def dbC3U : DB :=
  { pendingAuthorizations := [],
    authz := [{ id := "U", registrationID := 1, status := .pending }],
    challenges :=
      [{ id := 1, authorizationID := "U", challengeType := "http-01",
         token := "t" }],
    nextChallID := 2 }

/-- An update of the record of `dbC3U` supplying zero challenges (stored: one). -/
def aC3U : Authorization :=
  { id := "U", registrationID := 1, status := .pending, challenges := [] }

/-- The challenge rows a fault-free `NewPendingAuthorization` inserts:
consecutive auto-increment IDs starting at the next key of the table. -/
def newChallRows : Nat → String → List Challenge → List ChallRow
  | _, _, [] => []
  | n, authID, c :: cs =>
    { challengeToModel c authID with id := n } :: newChallRows (n + 1) authID cs

/-- A store already holding a record with ID `tok0`. -/
def dbC4 : DB :=
  { pendingAuthorizations :=
      [{ id := "tok0", registrationID := 2, status := .pending }],
    authz := [], challenges := [], nextChallID := 5 }

/-- A creation request that (wrongly) supplies status valid and one challenge. -/
def aC4 : Authorization :=
  { id := "", registrationID := 2, status := .valid,
    challenges := [{ id := 0, challengeType := "dns-01", token := "abc" }] }

/-- An empty issuance ledger. -/
def emptyCertDB : CertDB :=
  { certificates := [], certificateStatus := [], issuedNames := [],
    fqdnSets := [] }

/-- A decoder producing a certificate that parses fine but carries no subject
names. -/
def parseNoNames : Nat → Option ParsedCert := fun _ =>
  some { serialNumber := 9, notBefore := 0, notAfter := 1, dnsNames := [] }

/-- A decoder producing a one-name certificate. -/
def parseC6 : Nat → Option ParsedCert := fun _ =>
  some { serialNumber := 11, notBefore := 2, notAfter := 9,
         dnsNames := ["a.example.com"] }

/-- A store with one pending unified-table authorization and no challenges. -/
def dbC5 : DB :=
  { pendingAuthorizations := [],
    authz := [{ id := "p1", registrationID := 4, status := .pending }],
    challenges := [], nextChallID := 1 }

/-- A finalize request targeting the status revoked. -/
def aC5 : Authorization :=
  { id := "p1", registrationID := 4, status := .revoked, challenges := [] }

/-- The store after finalizing the record of `dbC5` to revoked. -/
def dbC5' : DB :=
  { pendingAuthorizations := [],
    authz := [{ id := "p1", registrationID := 4, status := .revoked }],
    challenges := [], nextChallID := 1 }

/-- A store with one invalid (final) legacy-table authorization. -/
def dbC5W : DB :=
  { pendingAuthorizations :=
      [{ id := "d1", registrationID := 1, status := .invalid }],
    authz := [], challenges := [], nextChallID := 1 }

/-! ## Theorems -/

theorem charToNat_inj {a b : Char} (h : a.toNat = b.toNat) : a = b :=
  Char.ext (UInt32.ext h)

theorem leChars_cons (a b : Char) (as bs : List Char) :
    leChars (a :: as) (b :: bs) = true ↔
      a.toNat < b.toNat ∨ (a.toNat = b.toNat ∧ leChars as bs = true) := by
  by_cases h1 : a.toNat < b.toNat
  · simp [leChars, h1]
  · by_cases h2 : b.toNat < a.toNat
    · have h3 : ¬ a.toNat = b.toNat := by omega
      simp [leChars, h1, h2, h3]
    · have h3 : a.toNat = b.toNat := by omega
      simp [leChars, h1, h2, h3]

theorem leChars_total : ∀ (a b : List Char), leChars a b = true ∨ leChars b a = true
  | [], _ => .inl rfl
  | _ :: _, [] => .inr rfl
  | a :: as, b :: bs => by
    rcases Nat.lt_trichotomy a.toNat b.toNat with h | h | h
    · exact .inl ((leChars_cons a b as bs).mpr (.inl h))
    · rcases leChars_total as bs with hr | hr
      · exact .inl ((leChars_cons a b as bs).mpr (.inr ⟨h, hr⟩))
      · exact .inr ((leChars_cons b a bs as).mpr (.inr ⟨h.symm, hr⟩))
    · exact .inr ((leChars_cons b a bs as).mpr (.inl h))

theorem leChars_trans :
    ∀ (a b c : List Char), leChars a b = true → leChars b c = true →
      leChars a c = true
  | [], _, _ => fun _ _ => rfl
  | _ :: _, [], _ => fun h _ => by simp [leChars] at h
  | _ :: _, _ :: _, [] => fun _ h => by simp [leChars] at h
  | a :: as, b :: bs, c :: cs => fun h1 h2 => by
    rw [leChars_cons] at h1 h2 ⊢
    rcases h1 with h1 | ⟨h1e, h1r⟩
    · rcases h2 with h2 | ⟨h2e, _⟩
      · exact .inl (by omega)
      · exact .inl (by omega)
    · rcases h2 with h2 | ⟨h2e, h2r⟩
      · exact .inl (by omega)
      · exact .inr ⟨by omega, leChars_trans as bs cs h1r h2r⟩

theorem leChars_antisymm :
    ∀ (a b : List Char), leChars a b = true → leChars b a = true → a = b
  | [], [] => fun _ _ => rfl
  | [], _ :: _ => fun _ h => by simp [leChars] at h
  | _ :: _, [] => fun h _ => by simp [leChars] at h
  | a :: as, b :: bs => fun h1 h2 => by
    rw [leChars_cons] at h1 h2
    rcases h1 with h1 | ⟨h1e, h1r⟩
    · rcases h2 with h2 | ⟨h2e, _⟩
      · omega
      · omega
    · rcases h2 with h2 | ⟨h2e, h2r⟩
      · omega
      · rw [charToNat_inj h1e, leChars_antisymm as bs h1r h2r]

theorem leString_trans (a b c : String) :
    leString a b = true → leString b c = true → leString a c = true :=
  leChars_trans a.data b.data c.data

theorem leString_total (a b : String) : (leString a b || leString b a) = true := by
  rcases leChars_total a.data b.data with h | h <;> simp [leString, h]

theorem leString_antisymm (a b : String) :
    leString a b = true → leString b a = true → a = b := by
  intro h1 h2
  cases a; cases b
  exact congrArg String.mk (leChars_antisymm _ _ h1 h2)

theorem insertStr_perm (s : String) (l : List String) :
    (insertStr s l).Perm (s :: l) := by
  induction l with
  | nil => exact List.Perm.refl _
  | cons t ts ih =>
    unfold insertStr
    by_cases h : leString s t = true
    · simp [h]
    · simp only [h, if_false, Bool.false_eq_true]
      exact (List.Perm.cons t ih).trans (List.Perm.swap s t ts)

theorem sortStrings_perm (l : List String) : (sortStrings l).Perm l := by
  induction l with
  | nil => exact List.Perm.refl _
  | cons s ss ih =>
    exact (insertStr_perm s (sortStrings ss)).trans (List.Perm.cons s ih)

theorem insertStr_sorted (s : String) (l : List String)
    (h : List.Sorted (fun a b => leString a b = true) l) :
    List.Sorted (fun a b => leString a b = true) (insertStr s l) := by
  induction l with
  | nil => simp [insertStr]
  | cons t ts ih =>
    rw [List.sorted_cons] at h
    obtain ⟨ht, hts⟩ := h
    unfold insertStr
    by_cases hle : leString s t = true
    · simp only [hle, if_true]
      rw [List.sorted_cons]
      refine ⟨?_, List.sorted_cons.mpr ⟨ht, hts⟩⟩
      intro b hb
      rcases List.mem_cons.mp hb with hb | hb
      · exact hb ▸ hle
      · exact leString_trans s t b hle (ht b hb)
    · simp only [hle, if_false, Bool.false_eq_true]
      rw [List.sorted_cons]
      refine ⟨?_, ih hts⟩
      intro b hb
      have hb' := (insertStr_perm s ts).mem_iff.mp hb
      rcases List.mem_cons.mp hb' with hb' | hb'
      · subst hb'
        have := leString_total t b
        rcases Bool.or_eq_true_iff.mp this with h' | h'
        · exact h'
        · exact absurd h' hle
      · exact ht b hb'

theorem sortStrings_sorted (l : List String) :
    List.Sorted (fun a b => leString a b = true) (sortStrings l) := by
  induction l with
  | nil => simp [sortStrings]
  | cons s ss ih => exact insertStr_sorted s (sortStrings ss) ih

theorem uniqueLowerNames_eq_of_same_set (L1 L2 : List String)
    (h : ∀ x, x ∈ L1.map lowerName ↔ x ∈ L2.map lowerName) :
    UniqueLowerNames L1 = UniqueLowerNames L2 := by
  have hperm : (L1.map lowerName).dedup.Perm (L2.map lowerName).dedup :=
    (List.perm_ext_iff_of_nodup (List.nodup_dedup _) (List.nodup_dedup _)).mpr
      (fun a => by simpa only [List.mem_dedup] using h a)
  have hsort : (UniqueLowerNames L1).Perm (UniqueLowerNames L2) :=
    ((sortStrings_perm _).trans hperm).trans (sortStrings_perm _).symm
  exact @List.eq_of_perm_of_sorted _ _ ⟨fun a b => leString_antisymm a b⟩ _ _
    hsort (sortStrings_sorted _) (sortStrings_sorted _)

/-- Consuming a fault from the empty oracle reports no fault. -/
theorem takeFault_noFaults : takeFault noFaults = (false, noFaults) := rfl

theorem commitChalls_rolledBack_eq {db2 db : DB}
    {r : Except String (List ChallRow × Faults)} {e : String} {db' : DB}
    (h : commitChalls db2 db r = .rolledBack e db') : db' = db := by
  unfold commitChalls at h
  split at h <;> simp_all

theorem commitNewPending_rolledBack_eq {db : DB} {authz1 : Authorization}
    {r : Except String (List ChallRow × Nat × List Challenge × Faults)}
    {e : String} {db' : DB} {res : Option Authorization}
    (h : commitNewPending db authz1 r = (.rolledBack e db', res)) :
    db' = db ∧ res = none := by
  unfold commitNewPending at h
  split at h <;> simp_all

theorem commitIssuedNames_ne_parseError {db db2 : CertDB} {fs3 : Faults}
    {digest : Nat} {fq : FQDNSetRow} {r : Except String (List IssuedNameRow)} :
    commitIssuedNames db db2 fs3 digest fq r ≠ .parseError := by
  unfold commitIssuedNames
  repeat' split
  all_goals simp

theorem commitIssuedNames_rolledBack_eq {db db2 : CertDB} {fs3 : Faults}
    {digest : Nat} {fq : FQDNSetRow} {r : Except String (List IssuedNameRow)}
    {e : String} {db' : CertDB}
    (h : commitIssuedNames db db2 fs3 digest fq r = .rolledBack e db') :
    db' = db := by
  unfold commitIssuedNames at h
  repeat' split at h
  all_goals simp_all

theorem maskCIDR_128 (ip : Nat) : maskCIDR ip 128 = ip := by
  simp [maskCIDR]

theorem maskCIDR_48 (ip : Nat) : maskCIDR ip 48 = ip / 2 ^ 80 * 2 ^ 80 := by
  show ip / 2 ^ (128 - 48) * 2 ^ (128 - 48) = ip / 2 ^ 80 * 2 ^ 80
  norm_num

theorem incrementIP_128 (ip : Nat) (h : ip + 1 < 2 ^ 128) :
    incrementIP ip 128 = ip + 1 := by
  unfold incrementIP
  simp only [show (128 : Nat) - 128 = 0 from rfl, pow_zero]
  rw [if_neg (by omega)]

theorem incrementIP_48_lt (ip : Nat) (h : ip + 2 ^ 80 < 2 ^ 128) :
    incrementIP ip 48 = ip + 2 ^ 80 := by
  unfold incrementIP
  simp only [show (128 : Nat) - 48 = 80 from rfl]
  rw [if_neg (by omega)]

theorem incrementIP_48_ge (ip : Nat) (h : 2 ^ 128 ≤ ip + 2 ^ 80) :
    incrementIP ip 48 = 2 ^ 128 - 1 := by
  unfold incrementIP
  simp only [show (128 : Nat) - 48 = 80 from rfl]
  rw [if_pos h]
  rfl

/-- C8: for every IPv4 address `ip`, `ipRange` returns the closed-open range
`[ip, ip+1)`; for every IPv6 address it masks the address to its leading 48
bits and returns `[base, base + 2^80)`; when the upper bound would exceed the
maximum representable address it is clamped to the maximum address rather
than wrapping around. -/
theorem ipRange_claim (ip : Nat) (hip : ip < 2 ^ 128) :
    (isIPv4 ip = true → ipRange ip = (ip, ip + 1)) ∧
    (isIPv4 ip = false →
      (ip / 2 ^ 80 * 2 ^ 80 + 2 ^ 80 < 2 ^ 128 →
        ipRange ip = (ip / 2 ^ 80 * 2 ^ 80, ip / 2 ^ 80 * 2 ^ 80 + 2 ^ 80)) ∧
      (2 ^ 128 ≤ ip / 2 ^ 80 * 2 ^ 80 + 2 ^ 80 →
        ipRange ip = (ip / 2 ^ 80 * 2 ^ 80, 2 ^ 128 - 1))) := by
  constructor
  · intro h
    have h' : ip / 2 ^ 32 = 0xffff := by
      simpa [isIPv4] using h
    have hlt : ip < 2 ^ 48 := by
      have h1 : ip / 2 ^ 32 < 0x10000 := by rw [h']; norm_num
      have h2 := (Nat.div_lt_iff_lt_mul (by positivity : 0 < 2 ^ 32)).mp h1
      calc ip < 0x10000 * 2 ^ 32 := h2
        _ = 2 ^ 48 := by norm_num
    have hr : ipRange ip = (ip, incrementIP ip 128) := by
      simp only [ipRange, h, if_true, maskCIDR_128]
    rw [hr, incrementIP_128 ip (by omega)]
  · intro h
    have hr : ipRange ip =
        (ip / 2 ^ 80 * 2 ^ 80, incrementIP (ip / 2 ^ 80 * 2 ^ 80) 48) := by
      simp only [ipRange, h, Bool.false_eq_true, if_false, maskCIDR_48]
    constructor
    · intro hlt
      rw [hr, incrementIP_48_lt _ hlt]
    · intro hge
      rw [hr, incrementIP_48_ge _ hge]

/-- Concrete check of C8: the IPv4-mapped address `1.2.3.4` gets the range
`[1.2.3.4, 1.2.3.5)`, and an address in the top /48 of the IPv6 space gets a
lower bound masked to the /48 and an upper bound clamped to the maximum
address. -/
theorem ipRange_claim_witness :
    ipRange 0xffff01020304 = (0xffff01020304, 0xffff01020305) ∧
    (ipRange 0xffffffffffff00000000000000000005).1 =
      0xffffffffffff00000000000000000000 ∧
    (ipRange 0xffffffffffff00000000000000000005).2 =
      0xffffffffffffffffffffffffffffffff := by
  have h4 := (ipRange_claim 0xffff01020304 (by norm_num)).1 (by decide)
  have h6 := ((ipRange_claim 0xffffffffffff00000000000000000005 (by norm_num)).2
    (by decide)).2 (by decide)
  refine ⟨h4, ?_, ?_⟩
  · rw [h6]
    decide
  · rw [h6]
    decide

/-- C10: `CountPendingAuthorizations` never reports a failure: whatever the
two per-table count queries do, the returned error is nil; if the first
query fails the result is 0, if the second fails it is the count of the
first table alone, and only if both succeed is it the true sum. -/
theorem countPendingAuthorizations_claim (query : String → Except String Int) :
    (CountPendingAuthorizations query).2 = none ∧
    (∀ e, query "pendingAuthorizations" = .error e →
      CountPendingAuthorizations query = (0, none)) ∧
    (∀ n e, query "pendingAuthorizations" = .ok n → query "authz" = .error e →
      CountPendingAuthorizations query = (n, none)) ∧
    (∀ n m, query "pendingAuthorizations" = .ok n → query "authz" = .ok m →
      CountPendingAuthorizations query = (n + m, none)) := by
  refine ⟨?_, ?_, ?_, ?_⟩
  · rcases h1 : query "pendingAuthorizations" with e | n
    · simp [CountPendingAuthorizations, authorizationTables, countPendingGo, h1]
    · rcases h2 : query "authz" with e | m <;>
        simp [CountPendingAuthorizations, authorizationTables, countPendingGo,
          h1, h2]
  · intro e h1
    simp [CountPendingAuthorizations, authorizationTables, countPendingGo, h1]
  · intro n e h1 h2
    simp [CountPendingAuthorizations, authorizationTables, countPendingGo, h1, h2]
  · intro n m h1 h2
    simp [CountPendingAuthorizations, authorizationTables, countPendingGo, h1, h2]

/-- Concrete check of C10: with the unified-table query failing, the caller
sees the partial count 3 and no error. -/
theorem countPendingAuthorizations_claim_witness :
    CountPendingAuthorizations queryC10 = (3, none) :=
  (countPendingAuthorizations_claim queryC10).2.2.1 3 "connection lost" rfl rfl

/-- C9: for all name lists that denote the same set of names after
lower-casing (in any order, any letter case, with any repetitions), the
name-set digest is the same, whatever the underlying hash primitive is. -/
theorem hashNames_claim (sha256 : String → Nat) (L1 L2 : List String)
    (h : ∀ x, x ∈ L1.map lowerName ↔ x ∈ L2.map lowerName) :
    hashNames sha256 L1 = hashNames sha256 L2 := by
  unfold hashNames
  rw [uniqueLowerNames_eq_of_same_set L1 L2 h]

/-- Concrete check of C9: a reordered, re-cased, duplicated variant of the
same two-name set yields the same digest. -/
theorem hashNames_claim_witness :
    hashNames (fun s => s.length)
        ["A.Example.COM", "b.example.com", "a.example.com"] =
      hashNames (fun s => s.length) ["b.EXAMPLE.com", "A.EXAMPLE.COM"] := by
  apply hashNames_claim
  intro x
  rw [show ["A.Example.COM", "b.example.com", "a.example.com"].map lowerName =
      ["a.example.com", "b.example.com", "a.example.com"] from by decide,
    show ["b.EXAMPLE.com", "A.EXAMPLE.COM"].map lowerName =
      ["b.example.com", "a.example.com"] from by decide]
  simp only [List.mem_cons, List.not_mem_nil, or_false]
  tauto

/-- C7 fails on the code: with 10001 matching rows (more than the cap),
`countCertificatesByName` returns 10001 — greater than 10,000 — and no
overflow error, because the `count > max` guard tests a variable that is
never assigned.  The claimed result would be `(10000, overflow)`. -/
theorem countCertificatesByName_overflow_bug :
    countCertificatesByName overflowRows "example.com" 0 2 = (10001, none) := by
  have hfilter : overflowRows.filter (fun r =>
      (r.reversedName = ReverseName "example.com" ||
          strStartsWith r.reversedName (ReverseName "example.com" ++ ".")) &&
        (0 : Int) < r.notBefore && r.notBefore ≤ (2 : Int)) = overflowRows := by
    rw [List.filter_eq_self]
    intro a ha
    obtain ⟨i, _, rfl⟩ := List.mem_map.mp ha
    rfl
  have hlen : overflowRows.length = 10001 := by
    simp [overflowRows]
  have htake : overflowRows.take 10001 = overflowRows := by
    rw [← hlen, List.take_length]
  have hmap : overflowRows.map (fun r => r.serial) = List.range 10001 := by
    simp only [overflowRows, List.map_map]
    exact List.map_id _
  have hdedup : (List.range 10001).dedup = List.range 10001 :=
    List.Nodup.dedup (List.nodup_range _)
  unfold countCertificatesByName
  simp only [hfilter, htake, hmap, hdedup, List.length_range]
  norm_num

theorem finalize_rolledBack_eq {fs : Faults} {db : DB} {a : Authorization}
    {e : String} {db' : DB}
    (h : FinalizeAuthorization fs db a = .rolledBack e db') : db' = db := by
  unfold FinalizeAuthorization at h
  repeat' split at h
  all_goals first
    | exact commitChalls_rolledBack_eq h
    | simp_all

theorem updatePending_rolledBack_eq {fs : Faults} {db : DB} {a : Authorization}
    {e : String} {db' : DB}
    (h : UpdatePendingAuthorization fs db a = .rolledBack e db') : db' = db := by
  unfold UpdatePendingAuthorization at h
  repeat' split at h
  all_goals first
    | exact commitChalls_rolledBack_eq h
    | simp_all

theorem deactivate_rolledBack_eq {fs : Faults} {db : DB} {id : String}
    {e : String} {db' : DB}
    (h : DeactivateAuthorization fs db id = .rolledBack e db') : db' = db := by
  unfold DeactivateAuthorization at h
  repeat' split at h
  all_goals simp_all

theorem newPending_rolledBack_eq {fs : Faults} {tokens : List String} {db : DB}
    {a : Authorization} {e : String} {db' : DB} {r : Option Authorization}
    (h : NewPendingAuthorization fs tokens db a = (.rolledBack e db', r)) :
    db' = db ∧ r = none := by
  unfold NewPendingAuthorization at h
  repeat' split at h
  all_goals first
    | exact commitNewPending_rolledBack_eq h
    | simp_all

theorem addCertificate_rolledBack_eq {parse : Nat → Option ParsedCert}
    {fingerprint : Nat → Nat} {sha256 : String → Nat} {fs : Faults} {db : CertDB}
    {certDER : Nat} {regID : Int} {now : Int} {e : String} {db' : CertDB}
    (h : AddCertificate parse fingerprint sha256 fs db certDER regID now =
      .rolledBack e db') : db' = db := by
  unfold AddCertificate at h
  repeat' split at h
  all_goals first
    | exact commitIssuedNames_rolledBack_eq h
    | simp_all

theorem updateChallGo_noFaults (pairs : List (Challenge × ChallRow)) :
    ∀ rows, updateChallGo noFaults rows pairs =
      .ok (applyChallUpdates rows pairs, noFaults) := by
  induction pairs with
  | nil => intro rows; rfl
  | cons p rest ih =>
    intro rows
    obtain ⟨c, stored⟩ := p
    simp only [updateChallGo, takeFault, noFaults, applyChallUpdates]
    exact ih _

theorem updateChallenges_noFaults (authID : String) (cs : List Challenge)
    (rows : List ChallRow)
    (h : (rows.filter (fun r => r.authorizationID = authID)).length = cs.length) :
    updateChallenges authID cs noFaults rows =
      .ok (challsAfterUpdate rows authID cs, noFaults) := by
  unfold updateChallenges challsAfterUpdate
  rw [if_neg (by simp [h])]
  exact updateChallGo_noFaults _ _

theorem updateChallenges_mismatch (authID : String) (cs : List Challenge)
    (fs : Faults) (rows : List ChallRow)
    (h : (rows.filter (fun r => r.authorizationID = authID)).length ≠ cs.length) :
    updateChallenges authID cs fs rows =
      .error "Invalid number of challenges provided" := by
  unfold updateChallenges
  rw [if_pos h]

/-- C1: finalizing an authorization whose stored status is not pending fails
with the invalid-state error and writes nothing; finalizing a pending one to
a pending status also fails; a rollback always leaves the store untouched,
and every run either commits in full or rolls back in full; with no storage
fault and a matching challenge count, a record stored in the legacy table is
moved (inserted into the unified table, deleted from the legacy table) with
its challenges rewritten, and a record stored in the unified table is updated
in place with its challenges rewritten. -/
theorem finalizeAuthorization_claim (fs : Faults) (db : DB) (a : Authorization)
    (row : AuthzRow) (table : String)
    (hget : getAuthz db a.id = .ok (row, table)) :
    (statusIsPending row.status = false →
      FinalizeAuthorization fs db a =
        .rolledBack "Cannot finalize an authorization that is not pending" db) ∧
    (statusIsPending row.status = true → statusIsPending a.status = true →
      FinalizeAuthorization fs db a =
        .rolledBack "Cannot finalize an authorization to a non-final status" db) ∧
    (∀ e db', FinalizeAuthorization fs db a = .rolledBack e db' → db' = db) ∧
    ((∃ db', FinalizeAuthorization fs db a = .committed db') ∨
      (∃ e, FinalizeAuthorization fs db a = .rolledBack e db)) ∧
    (statusIsPending row.status = true → statusIsPending a.status = false →
      (db.challenges.filter (fun r => r.authorizationID = a.id)).length =
        a.challenges.length →
      (table = "pendingAuthorizations" →
        FinalizeAuthorization noFaults db a = .committed
          { db with
              authz := db.authz ++ [rowOfAuthz a],
              pendingAuthorizations :=
                db.pendingAuthorizations.filter (fun r => ¬ r.id = row.id),
              challenges := challsAfterUpdate db.challenges a.id a.challenges }) ∧
      (table = "authz" →
        FinalizeAuthorization noFaults db a = .committed
          { db with
              authz := updateAuthzTable db.authz (rowOfAuthz a),
              challenges := challsAfterUpdate db.challenges a.id a.challenges })) := by
  refine ⟨?_, ?_, ?_, ?_, ?_⟩
  · intro h
    simp [FinalizeAuthorization, hget, h]
  · intro h1 h2
    simp [FinalizeAuthorization, hget, h1, h2]
  · intro e db' h
    exact finalize_rolledBack_eq h
  · cases hr : FinalizeAuthorization fs db a with
    | committed db1 => exact .inl ⟨db1, rfl⟩
    | rolledBack e1 db1 => exact .inr ⟨e1, by rw [finalize_rolledBack_eq hr]⟩
  · intro h1 h2 hc
    have hu := updateChallenges_noFaults a.id a.challenges db.challenges hc
    simp only [noFaults] at hu
    constructor
    · intro ht
      subst ht
      simp only [FinalizeAuthorization, hget, h1, h2, Bool.not_eq_true,
        Bool.true_eq_false, if_false, if_true, Bool.false_eq_true,
        takeFault, noFaults]
      simp +decide [hu, commitChalls, challsAfterUpdate]
    · intro ht
      subst ht
      simp only [FinalizeAuthorization, hget, h1, h2, Bool.not_eq_true,
        Bool.true_eq_false, if_false, if_true, Bool.false_eq_true,
        takeFault, noFaults]
      simp +decide [hu, commitChalls, challsAfterUpdate]

/-- Concrete check of C1: finalizing the pending legacy-table record of `dbC1`
to valid moves the row into the unified table, deletes the legacy row, and
rewrites the challenge row, in one committed transaction. -/
theorem finalizeAuthorization_claim_witness :
    FinalizeAuthorization noFaults dbC1 aC1 =
      .committed
        { pendingAuthorizations := [],
          authz := [{ id := "legacy1", registrationID := 7, status := .valid }],
          challenges :=
            [{ id := 3, authorizationID := "legacy1", challengeType := "http-01",
               token := "tok2" }],
          nextChallID := 4 } :=
  ((finalizeAuthorization_claim noFaults dbC1 aC1
      { id := "legacy1", registrationID := 7, status := .pending }
      "pendingAuthorizations" rfl).2.2.2.2 rfl rfl (by decide)).1 rfl

/-- C2 fails on the code: a pending authorization stored in the legacy table,
updated with pending status and a matching challenge count, is *not* updated —
the caller gets the location-dependent error `"Internal error. Table mismatch
updating authz"`, because `UpdatePendingAuthorization` compares the location
tag against the literal `"pendingAuthorization"` (no trailing `s`) while the
tag of the legacy location is `"pendingAuthorizations"`. -/
theorem updatePendingAuthorization_legacy_bug :
    statusIsPending aC2.status = true ∧
    getAuthz dbC2 aC2.id =
      .ok ({ id := "legacy1", registrationID := 1, status := .pending },
        "pendingAuthorizations") ∧
    (dbC2.challenges.filter (fun r => r.authorizationID = aC2.id)).length =
      aC2.challenges.length ∧
    UpdatePendingAuthorization noFaults dbC2 aC2 =
      .rolledBack "Internal error. Table mismatch updating authz" dbC2 :=
  ⟨rfl, rfl, rfl, rfl⟩

/-- C3 against the code: for a record in the unified table, a challenge-count
mismatch fails with the validation error `"Invalid number of challenges
provided"` and rolls back, leaving the store exactly as it was; but for a
record in the legacy table the same call fails with `"Internal error. Table
mismatch updating authz"` instead of the validation error (it never reaches
the count check), again leaving the store unchanged. -/
theorem updatePendingAuthorization_mismatch_behavior :
    (dbC3U.challenges.filter (fun r => r.authorizationID = aC3U.id)).length ≠
      aC3U.challenges.length ∧
    UpdatePendingAuthorization noFaults dbC3U aC3U =
      .rolledBack "Invalid number of challenges provided" dbC3U ∧
    (dbC3L.challenges.filter (fun r => r.authorizationID = aC3L.id)).length ≠
      aC3L.challenges.length ∧
    UpdatePendingAuthorization noFaults dbC3L aC3L =
      .rolledBack "Internal error. Table mismatch updating authz" dbC3L :=
  ⟨by decide, rfl, by decide, rfl⟩

theorem insertChallGo_noFaults (cs : List Challenge) :
    ∀ (rows : List ChallRow) (nextID : Nat) (authID : String),
      insertChallGo noFaults rows nextID authID cs =
        .ok (rows ++ newChallRows nextID authID cs, nextID + cs.length,
          (newChallRows nextID authID cs).map modelToChallenge, noFaults) := by
  induction cs with
  | nil =>
    intro rows nextID authID
    simp [insertChallGo, newChallRows, noFaults]
  | cons c cs ih =>
    intro rows nextID authID
    simp only [insertChallGo, takeFault_noFaults, newChallRows]
    rw [ih]
    simp [List.append_assoc]
    omega

theorem pickFreshID_fresh (db : DB) :
    ∀ (tokens : List String) (t : String), pickFreshID db tokens = some t →
      authzIdExists db t = false ∧ t ∈ tokens := by
  intro tokens
  induction tokens with
  | nil => intro t h; simp [pickFreshID] at h
  | cons s ss ih =>
    intro t h
    unfold pickFreshID at h
    by_cases he : authzIdExists db s = true
    · rw [if_pos he] at h
      obtain ⟨h1, h2⟩ := ih t h
      exact ⟨h1, List.mem_cons_of_mem _ h2⟩
    · rw [if_neg he] at h
      injection h with h
      subst h
      refine ⟨?_, List.mem_cons_self _ _⟩
      cases hb : authzIdExists db s
      · rfl
      · exact absurd hb he

/-- C4: whatever status the caller supplies, `NewPendingAuthorization` stores
and returns a pending authorization; the chosen ID matches no existing record
in either storage location; the authorization row and one challenge row per
supplied challenge (with auto-increment IDs populated) are inserted in the
same transaction; and any failure rolls the whole creation back, leaving the
store untouched and returning no authorization. -/
theorem newPendingAuthorization_claim (fs : Faults) (tokens : List String)
    (db : DB) (a : Authorization) :
    (∀ e db' r, NewPendingAuthorization fs tokens db a = (.rolledBack e db', r) →
      db' = db ∧ r = none) ∧
    (∀ t, pickFreshID db tokens = some t →
      authzIdExists db t = false ∧ t ∈ tokens) ∧
    (∀ t, pickFreshID db tokens = some t →
      NewPendingAuthorization noFaults tokens db a =
        (.committed
          { db with
              authz := db.authz ++
                [{ id := t, registrationID := a.registrationID,
                   status := .pending }],
              challenges := db.challenges ++
                newChallRows db.nextChallID t a.challenges,
              nextChallID := db.nextChallID + a.challenges.length },
          some { id := t, registrationID := a.registrationID,
                 status := .pending,
                 challenges := (newChallRows db.nextChallID t a.challenges).map
                   modelToChallenge })) := by
  refine ⟨?_, ?_, ?_⟩
  · intro e db' r h
    exact newPending_rolledBack_eq h
  · exact pickFreshID_fresh db tokens
  · intro t ht
    simp only [NewPendingAuthorization, ht, takeFault_noFaults]
    rw [insertChallGo_noFaults]
    simp [commitNewPending, rowOfAuthz]

/-- Concrete check of C4: with the token stream `["tok0", "tok1"]`, the taken
ID is `tok1` (`tok0` already exists), the stored and returned status is
pending despite the supplied valid, and the challenge row gets the
auto-increment ID 5. -/
theorem newPendingAuthorization_claim_witness :
    NewPendingAuthorization noFaults ["tok0", "tok1"] dbC4 aC4 =
      (.committed
        { pendingAuthorizations :=
            [{ id := "tok0", registrationID := 2, status := .pending }],
          authz := [{ id := "tok1", registrationID := 2, status := .pending }],
          challenges :=
            [{ id := 5, authorizationID := "tok1", challengeType := "dns-01",
               token := "abc" }],
          nextChallID := 6 },
        some { id := "tok1", registrationID := 2, status := .pending,
               challenges := [{ id := 5, challengeType := "dns-01",
                                token := "abc" }] }) :=
  (newPendingAuthorization_claim noFaults ["tok0", "tok1"] dbC4 aC4).2.2 "tok1" rfl

/-- C6 fails as stated: a certificate that decodes successfully but has no
subject names is not recorded at all — the generated issued-names `INSERT`
has an empty `VALUES` list, the statement fails, the transaction rolls back,
and none of the four kinds of rows is committed.  The claim as stated says
recording such a certificate inserts the certificate row, its status row,
zero issued-name rows and the FQDN-set row. -/
theorem addCertificate_no_names_counterexample :
    (parseNoNames 0).isSome = true ∧
    AddCertificate parseNoNames (fun n => n) (fun _ => 0) noFaults emptyCertDB
        0 1 0 =
      .rolledBack "SQL syntax error: empty VALUES list" emptyCertDB :=
  ⟨rfl, rfl⟩

/-- C6 (amended): for every encoded certificate that decodes successfully
*and carries at least one subject name*, recording it within one transaction
inserts the certificate row, an initial status row (status good, no
revocation fields set), one issued-name row per subject name and one FQDN-set
row keyed by the name-set digest; every rollback leaves the ledger exactly as
it was, and every run either commits all four inserts or rolls back
entirely. -/
theorem addCertificate_claim (parse : Nat → Option ParsedCert)
    (fingerprint : Nat → Nat) (sha256 : String → Nat) (fs : Faults)
    (db : CertDB) (certDER : Nat) (regID : Int) (now : Int)
    (parsed : ParsedCert) (hp : parse certDER = some parsed)
    (hn : parsed.dnsNames ≠ []) :
    (∀ e db', AddCertificate parse fingerprint sha256 fs db certDER regID now =
        .rolledBack e db' → db' = db) ∧
    ((∃ dg db', AddCertificate parse fingerprint sha256 fs db certDER regID now =
        .committed dg db') ∨
      (∃ e, AddCertificate parse fingerprint sha256 fs db certDER regID now =
        .rolledBack e db)) ∧
    AddCertificate parse fingerprint sha256 noFaults db certDER regID now =
      .committed (fingerprint certDER)
        { certificates := db.certificates ++
            [{ registrationID := regID, serial := parsed.serialNumber,
               digest := fingerprint certDER, der := certDER, issued := now,
               expires := parsed.notAfter }],
          certificateStatus := db.certificateStatus ++
            [initialCertStatus parsed.serialNumber],
          issuedNames := db.issuedNames ++ issuedNameRows parsed,
          fqdnSets := db.fqdnSets ++
            [{ setHash := hashNames sha256 parsed.dnsNames,
               serial := parsed.serialNumber, issued := parsed.notBefore,
               expires := parsed.notAfter }] } := by
  refine ⟨?_, ?_, ?_⟩
  · intro e db' h
    exact addCertificate_rolledBack_eq h
  · cases hr : AddCertificate parse fingerprint sha256 fs db certDER regID now with
    | parseError =>
      exfalso
      unfold AddCertificate at hr
      simp only [hp] at hr
      repeat' split at hr
      all_goals first
        | exact commitIssuedNames_ne_parseError hr
        | simp_all
    | committed dg db1 => exact .inl ⟨dg, db1, rfl⟩
    | rolledBack e1 db1 =>
      exact .inr ⟨e1, by rw [addCertificate_rolledBack_eq hr]⟩
  · have hne : ¬ parsed.dnsNames.isEmpty = true := by
      simp [List.isEmpty_iff, hn]
    simp only [AddCertificate, hp, takeFault_noFaults]
    simp [addIssuedNames, hne, commitIssuedNames, takeFault_noFaults]

/-- Concrete check of the amended C6: a fault-free recording of a one-name
certificate commits exactly the four rows. -/
theorem addCertificate_claim_witness :
    AddCertificate parseC6 (fun n => n + 1) (fun s => s.length) noFaults
        emptyCertDB 5 3 8 =
      .committed 6
        { certificates := [{ registrationID := 3, serial := 11, digest := 6,
                             der := 5, issued := 8, expires := 9 }],
          certificateStatus := [initialCertStatus 11],
          issuedNames := [{ reversedName := "com.example.a", serial := 11,
                            notBefore := 2 }],
          fqdnSets := [{ setHash := hashNames (fun s => s.length)
                           ["a.example.com"],
                         serial := 11, issued := 2, expires := 9 }] } :=
  (addCertificate_claim parseC6 (fun n => n + 1) (fun s => s.length) noFaults
    emptyCertDB 5 3 8
    { serialNumber := 11, notBefore := 2, notAfter := 9,
      dnsNames := ["a.example.com"] }
    rfl (by decide)).2.2

theorem statusIsPending_iff (s : AcmeStatus) :
    statusIsPending s = true ↔ s = .pending := by
  cases s <;> simp [statusIsPending]

theorem find?_some_id {rows : List AuthzRow} {j : String} {r : AuthzRow}
    (h : rows.find? (fun x => x.id = j) = some r) : r.id = j := by
  have := List.find?_some h
  simpa using this

theorem find?_map_preserve (f : AuthzRow → AuthzRow)
    (hf : ∀ r, (f r).id = r.id) (rows : List AuthzRow) (j : String) :
    (rows.map f).find? (fun r => r.id = j) =
      (rows.find? (fun r => r.id = j)).map f := by
  induction rows with
  | nil => rfl
  | cons r rs ih =>
    by_cases h : r.id = j
    · rw [List.map_cons,
        List.find?_cons_of_pos _ (by simp [hf, h]),
        List.find?_cons_of_pos _ (by simp [h])]
      rfl
    · rw [List.map_cons,
        List.find?_cons_of_neg _ (by simp [hf, h]),
        List.find?_cons_of_neg _ (by simp [h]), ih]

theorem find?_filter_not_id (rows : List AuthzRow) (i j : String)
    (hne : ¬ i = j) :
    (rows.filter (fun r => ¬ r.id = i)).find? (fun r => r.id = j) =
      rows.find? (fun r => r.id = j) := by
  induction rows with
  | nil => rfl
  | cons r rs ih =>
    by_cases hri : r.id = i
    · have hrj : ¬ r.id = j := by rw [hri]; exact hne
      rw [List.filter_cons_of_neg (by simp [hri]),
        List.find?_cons_of_neg _ (by simp [hrj]), ih]
    · by_cases hrj : r.id = j
      · rw [List.filter_cons_of_pos (by simp [hri]),
          List.find?_cons_of_pos _ (by simp [hrj]),
          List.find?_cons_of_pos _ (by simp [hrj])]
      · rw [List.filter_cons_of_pos (by simp [hri]),
          List.find?_cons_of_neg _ (by simp [hrj]),
          List.find?_cons_of_neg _ (by simp [hrj]), ih]

theorem find?_filter_id_none (rows : List AuthzRow) (i : String) :
    (rows.filter (fun r => ¬ r.id = i)).find? (fun r => r.id = i) = none := by
  rw [List.find?_eq_none]
  intro x hx
  have hmem := (List.mem_filter.mp hx).2
  simp at hmem ⊢
  exact hmem

theorem wf_pending_authz_disjoint {db : DB} (hwf : wfDB db) {i : String}
    (hp : i ∈ db.pendingAuthorizations.map (fun r => r.id)) :
    db.authz.find? (fun r => r.id = i) = none := by
  rw [List.find?_eq_none]
  intro x hx
  have hd := (List.nodup_append.mp hwf.1).2.2
  intro hxi
  have hxid : x.id = i := by simpa using hxi
  have hxim : i ∈ db.authz.map (fun r => r.id) :=
    hxid ▸ List.mem_map_of_mem _ hx
  exact hd hp hxim

theorem getAuthz_pending_inv {db : DB} {id : String} {row : AuthzRow}
    (h : getAuthz db id = .ok (row, "pendingAuthorizations")) :
    db.pendingAuthorizations.find? (fun r => r.id = id) = some row := by
  unfold getAuthz at h
  split at h
  · simp_all
  · split at h <;> simp_all

theorem getAuthz_authz_inv {db : DB} {id : String} {row : AuthzRow}
    (h : getAuthz db id = .ok (row, "authz")) :
    db.pendingAuthorizations.find? (fun r => r.id = id) = none ∧
      db.authz.find? (fun r => r.id = id) = some row := by
  unfold getAuthz at h
  split at h
  · simp_all
  · split at h <;> simp_all

theorem getAuthz_table {db : DB} {id : String} {row : AuthzRow} {t : String}
    (h : getAuthz db id = .ok (row, t)) :
    t = "pendingAuthorizations" ∨ t = "authz" := by
  unfold getAuthz at h
  split at h
  · exact .inl (by simp_all)
  · split at h
    · exact .inr (by simp_all)
    · simp_all

theorem commitChalls_committed {db2 db : DB}
    {r : Except String (List ChallRow × Faults)} {db' : DB}
    (h : commitChalls db2 db r = .committed db') :
    ∃ rows, db' = { db2 with challenges := rows } := by
  unfold commitChalls at h
  split at h
  · simp at h
  · injection h with h
    exact ⟨_, h.symm⟩

theorem finalize_committed_inv {fs : Faults} {db : DB} {a : Authorization}
    {db' : DB} (h : FinalizeAuthorization fs db a = .committed db') :
    ∃ row rows,
      row.status = .pending ∧ statusIsPending a.status = false ∧
      ((getAuthz db a.id = .ok (row, "pendingAuthorizations") ∧
        db' = { db with
          pendingAuthorizations :=
            db.pendingAuthorizations.filter (fun r => ¬ r.id = row.id),
          authz := db.authz ++ [rowOfAuthz a],
          challenges := rows }) ∨
       (getAuthz db a.id = .ok (row, "authz") ∧
        db' = { db with
          authz := updateAuthzTable db.authz (rowOfAuthz a),
          challenges := rows })) := by
  cases hg : getAuthz db a.id with
  | error e =>
    unfold FinalizeAuthorization at h
    simp only [hg] at h
    simp at h
  | ok pr =>
    obtain ⟨row, table⟩ := pr
    unfold FinalizeAuthorization at h
    simp only [hg] at h
    by_cases h1 : statusIsPending row.status = true
    · by_cases h2 : statusIsPending a.status = true
      · rw [if_neg (not_not_intro h1), if_pos h2] at h
        simp at h
      · rw [if_neg (not_not_intro h1), if_neg h2] at h
        have has : statusIsPending a.status = false := by
          cases hb : statusIsPending a.status
          · rfl
          · exact absurd hb h2
        rcases getAuthz_table hg with ht | ht <;> subst ht
        · rw [if_pos rfl] at h
          split at h
          · simp at h
          · split at h
            · simp at h
            · obtain ⟨rows, hdb⟩ := commitChalls_committed h
              exact ⟨row, rows, (statusIsPending_iff _).mp h1, has,
                .inl ⟨rfl, hdb⟩⟩
        · rw [if_neg (by decide), if_pos rfl] at h
          split at h
          · simp at h
          · obtain ⟨rows, hdb⟩ := commitChalls_committed h
            exact ⟨row, rows, (statusIsPending_iff _).mp h1, has,
              .inr ⟨rfl, hdb⟩⟩
    · rw [if_pos h1] at h
      simp at h

theorem updatePending_committed_inv {fs : Faults} {db : DB} {a : Authorization}
    {db' : DB} (h : UpdatePendingAuthorization fs db a = .committed db') :
    ∃ row rows,
      statusIsPending a.status = true ∧ row.status = .pending ∧
      getAuthz db a.id = .ok (row, "authz") ∧
      db' = { db with
        authz := updateAuthzTable db.authz (rowOfAuthz a),
        challenges := rows } := by
  unfold UpdatePendingAuthorization at h
  by_cases h0 : statusIsPending a.status = true
  · rw [if_neg (not_not_intro h0)] at h
    cases hg : getAuthz db a.id with
    | error e =>
      simp only [hg] at h
      simp at h
    | ok pr =>
      obtain ⟨row, table⟩ := pr
      simp only [hg] at h
      by_cases h1 : statusIsPending row.status = true
      · rw [if_neg (not_not_intro h1)] at h
        rcases getAuthz_table hg with ht | ht <;> subst ht
        · rw [if_neg (by decide), if_neg (by decide)] at h
          simp at h
        · rw [if_neg (by decide), if_pos rfl] at h
          split at h
          · simp at h
          · obtain ⟨rows, hdb⟩ := commitChalls_committed h
            exact ⟨row, rows, h0, (statusIsPending_iff _).mp h1, rfl, hdb⟩
      · rw [if_pos h1] at h
        simp at h
  · rw [if_pos h0] at h
    simp at h

theorem deactivate_committed_inv {fs : Faults} {db : DB} {id : String}
    {db' : DB} (h : DeactivateAuthorization fs db id = .committed db') :
    ∃ row table, getAuthz db id = .ok (row, table) ∧
      ((row.status ≠ .pending ∧ row.status ≠ .valid) ∧ db' = db ∨
       (row.status = .pending ∨ row.status = .valid) ∧
         (table = "pendingAuthorizations" ∧
            db' = { db with pendingAuthorizations :=
              conditionalDeactivate db.pendingAuthorizations id } ∨
          table = "authz" ∧
            db' = { db with authz := conditionalDeactivate db.authz id })) := by
  cases hg : getAuthz db id with
  | error e =>
    unfold DeactivateAuthorization at h
    simp only [hg] at h
    simp at h
  | ok pr =>
    obtain ⟨row, table⟩ := pr
    unfold DeactivateAuthorization at h
    simp only [hg] at h
    by_cases hc : row.status ≠ .pending ∧ row.status ≠ .valid
    · rw [if_pos hc] at h
      injection h with h
      exact ⟨row, table, rfl, .inl ⟨hc, h.symm⟩⟩
    · rw [if_neg hc] at h
      have hpv : row.status = .pending ∨ row.status = .valid := by
        by_cases hp : row.status = .pending
        · exact .inl hp
        · by_cases hv : row.status = .valid
          · exact .inr hv
          · exact absurd ⟨hp, hv⟩ hc
      split at h
      · simp at h
      · rcases getAuthz_table hg with ht | ht <;> subst ht
        · rw [if_pos rfl] at h
          injection h with h
          exact ⟨row, _, rfl, .inr ⟨hpv, .inl ⟨rfl, h.symm⟩⟩⟩
        · rw [if_neg (by decide), if_pos rfl] at h
          injection h with h
          exact ⟨row, _, rfl, .inr ⟨hpv, .inr ⟨rfl, h.symm⟩⟩⟩

theorem commitNewPending_committed {db : DB} {authz1 : Authorization}
    {r : Except String (List ChallRow × Nat × List Challenge × Faults)}
    {db' : DB} {res : Option Authorization}
    (h : commitNewPending db authz1 r = (.committed db', res)) :
    ∃ rows nextID challs,
      db' = { db with
        authz := db.authz ++ [rowOfAuthz authz1],
        challenges := rows,
        nextChallID := nextID } ∧
      res = some { authz1 with challenges := challs } := by
  unfold commitNewPending at h
  split at h
  · simp at h
  · rw [Prod.mk.injEq] at h
    obtain ⟨h1, h2⟩ := h
    injection h1 with h1
    exact ⟨_, _, _, h1.symm, h2.symm⟩

theorem newPending_committed_inv {fs : Faults} {tokens : List String} {db : DB}
    {a : Authorization} {db' : DB} {res : Option Authorization}
    (h : NewPendingAuthorization fs tokens db a = (.committed db', res)) :
    ∃ t rows nextID,
      pickFreshID db tokens = some t ∧
      db' = { db with
        authz := db.authz ++
          [{ id := t, registrationID := a.registrationID, status := .pending }],
        challenges := rows, nextChallID := nextID } := by
  unfold NewPendingAuthorization at h
  cases hp : pickFreshID db tokens with
  | none =>
    rw [hp] at h
    simp at h
  | some t =>
    simp only [hp] at h
    split at h
    · simp at h
    · obtain ⟨rows, nextID, challs, hdb, _⟩ := commitNewPending_committed h
      exact ⟨t, rows, nextID, rfl, hdb⟩

theorem conditionalDeactivate_find? (rows : List AuthzRow) (i j : String) :
    (conditionalDeactivate rows i).find? (fun r => r.id = j) =
      (rows.find? (fun r => r.id = j)).map (fun r =>
        if r.id = i ∧ (r.status = .pending ∨ r.status = .valid) then
          { r with status := .deactivated }
        else r) := by
  unfold conditionalDeactivate
  exact find?_map_preserve _ (fun r => by split <;> rfl) rows j

theorem updateAuthzTable_find? (rows : List AuthzRow) (x : AuthzRow)
    (j : String) :
    (updateAuthzTable rows x).find? (fun r => r.id = j) =
      (rows.find? (fun r => r.id = j)).map
        (fun r => if r.id = x.id then x else r) := by
  unfold updateAuthzTable
  exact find?_map_preserve _ (fun r => by split <;> simp_all) rows j

theorem finalize_statusOf {fs : Faults} {db : DB} {a : Authorization} {db' : DB}
    (hwf : wfDB db) (h : FinalizeAuthorization fs db a = .committed db') :
    statusIsPending a.status = false ∧
    statusOf db a.id = some .pending ∧
    statusOf db' a.id = some a.status ∧
    ∀ j, ¬ j = a.id → statusOf db' j = statusOf db j := by
  obtain ⟨row, rows, hrs, has, hcase⟩ := finalize_committed_inv h
  rcases hcase with ⟨hg, rfl⟩ | ⟨hg, rfl⟩
  · have hfind := getAuthz_pending_inv hg
    have hrid : row.id = a.id := find?_some_id hfind
    have hmem : a.id ∈ db.pendingAuthorizations.map (fun r => r.id) := by
      have hm := List.mem_of_find?_eq_some hfind
      exact hrid ▸ List.mem_map_of_mem _ hm
    refine ⟨has, ?_, ?_, ?_⟩
    · simp [statusOf, hfind, hrs]
    · simp only [statusOf, hrid, find?_filter_id_none, List.find?_append,
        wf_pending_authz_disjoint hwf hmem, Option.none_or]
      simp [rowOfAuthz, List.find?]
    · intro j hj
      have hne : ¬ a.id = j := fun hh => hj hh.symm
      simp only [statusOf, hrid, find?_filter_not_id _ _ _ hne,
        List.find?_append]
      cases hfp : db.pendingAuthorizations.find? (fun r => r.id = j) with
      | some r => rfl
      | none =>
        have hsing : ([rowOfAuthz a] : List AuthzRow).find?
            (fun r => r.id = j) = none := by
          simp [rowOfAuthz, List.find?, hne]
        rw [hsing]
        simp
  · obtain ⟨hpend, hfind⟩ := getAuthz_authz_inv hg
    have hrid : row.id = a.id := find?_some_id hfind
    refine ⟨has, ?_, ?_, ?_⟩
    · simp [statusOf, hpend, hfind, hrs]
    · simp only [statusOf, hpend, updateAuthzTable_find?, hfind]
      simp [rowOfAuthz, hrid]
    · intro j hj
      simp only [statusOf, updateAuthzTable_find?]
      cases hfp : db.pendingAuthorizations.find? (fun r => r.id = j) with
      | some r => rfl
      | none =>
        cases hfa : db.authz.find? (fun r => r.id = j) with
        | none => rfl
        | some r =>
          have hrj : r.id = j := find?_some_id hfa
          have hra : ¬ r.id = (rowOfAuthz a).id := by
            simp only [rowOfAuthz]
            rw [hrj]
            exact fun hh => hj hh
          simp [hra]

theorem updatePending_statusOf {fs : Faults} {db : DB} {a : Authorization}
    {db' : DB} (h : UpdatePendingAuthorization fs db a = .committed db') :
    ∀ j, statusOf db' j = statusOf db j := by
  obtain ⟨row, rows, h0, hrs, hg, rfl⟩ := updatePending_committed_inv h
  obtain ⟨hpend, hfind⟩ := getAuthz_authz_inv hg
  have hrid : row.id = a.id := find?_some_id hfind
  intro j
  simp only [statusOf]
  cases hfp : db.pendingAuthorizations.find? (fun r => r.id = j) with
  | some r => rfl
  | none =>
    rw [updateAuthzTable_find?]
    cases hfa : db.authz.find? (fun r => r.id = j) with
    | none => rfl
    | some r =>
      have hrj : r.id = j := find?_some_id hfa
      by_cases hj : j = a.id
      · subst hj
        rw [hfind] at hfa
        injection hfa with hfa
        subst hfa
        simp [rowOfAuthz, hrid, hrs, (statusIsPending_iff _).mp h0]
      · have hra : ¬ r.id = (rowOfAuthz a).id := by
          simp only [rowOfAuthz]
          rw [hrj]
          exact hj
        simp [hra]

theorem deactivate_statusOf {fs : Faults} {db : DB} {id : String} {db' : DB}
    (h : DeactivateAuthorization fs db id = .committed db') :
    ∀ j, statusOf db' j = statusOf db j ∨
      (j = id ∧ (statusOf db j = some .pending ∨ statusOf db j = some .valid) ∧
        statusOf db' j = some .deactivated) := by
  obtain ⟨row, table, hg, hcase⟩ := deactivate_committed_inv h
  rcases hcase with ⟨_, rfl⟩ | ⟨hpv, hcase2⟩
  · intro j
    exact .inl rfl
  · rcases hcase2 with ⟨ht, rfl⟩ | ⟨ht, rfl⟩
    · intro j
      simp only [statusOf, conditionalDeactivate_find?]
      cases hfp : db.pendingAuthorizations.find? (fun r => r.id = j) with
      | none => exact .inl rfl
      | some r =>
        have hrj : r.id = j := find?_some_id hfp
        by_cases hcd : r.id = id ∧ (r.status = .pending ∨ r.status = .valid)
        · right
          refine ⟨by rw [← hrj, hcd.1], ?_, ?_⟩
          · rcases hcd.2 with hs | hs <;> simp [hs]
          · simp [hcd]
        · left
          simp [hcd]
    · intro j
      simp only [statusOf, conditionalDeactivate_find?]
      cases hfp : db.pendingAuthorizations.find? (fun r => r.id = j) with
      | some r => exact .inl rfl
      | none =>
        cases hfa : db.authz.find? (fun r => r.id = j) with
        | none => exact .inl rfl
        | some r =>
          have hrj : r.id = j := find?_some_id hfa
          by_cases hcd : r.id = id ∧ (r.status = .pending ∨ r.status = .valid)
          · right
            refine ⟨by rw [← hrj, hcd.1], ?_, ?_⟩
            · rcases hcd.2 with hs | hs <;> simp [hs]
            · simp [hcd]
          · left
            simp [hcd]

theorem newPending_statusOf {fs : Faults} {tokens : List String} {db : DB}
    {a : Authorization} {db' : DB} {res : Option Authorization}
    (h : NewPendingAuthorization fs tokens db a = (.committed db', res)) :
    ∀ j, statusOf db j ≠ none → statusOf db' j = statusOf db j := by
  obtain ⟨t, rows, nextID, hp, rfl⟩ := newPending_committed_inv h
  intro j hj
  simp only [statusOf] at hj ⊢
  cases hfp : db.pendingAuthorizations.find? (fun r => r.id = j) with
  | some r => rfl
  | none =>
    rw [List.find?_append]
    cases hfa : db.authz.find? (fun r => r.id = j) with
    | some r => rfl
    | none =>
      rw [hfp, hfa] at hj
      simp at hj

/-- C5 fails as stated: `FinalizeAuthorization` checks only that the supplied
target status is not pending, so it happily performs the transition
pending → revoked — which is none of pending→valid, pending→invalid,
{pending, valid}→deactivated. -/
theorem finalize_to_revoked_counterexample :
    statusOf dbC5 "p1" = some .pending ∧
    FinalizeAuthorization noFaults dbC5 aC5 = .committed dbC5' ∧
    statusOf dbC5' "p1" = some .revoked :=
  ⟨rfl, rfl, rfl⟩

/-- C5 (amended): `DeactivateAuthorization` returns success without writing
when the current status is neither pending nor valid, and any row it does
change was pending or valid and becomes deactivated;
`FinalizeAuthorization`, when it commits, moves its (previously pending)
target record to the caller-supplied status — which is only constrained to
be non-pending, so pending→revoked is also possible — and changes the status
of no other record; `UpdatePendingAuthorization` never changes the status of
any record; and `NewPendingAuthorization` never changes the status of any
existing record.  In particular no operation moves a record whose stored
status is neither pending nor valid. -/
theorem statusTransitions_claim (fs : Faults) (db : DB) (hwf : wfDB db) :
    (∀ id row table, getAuthz db id = .ok (row, table) →
      row.status ≠ .pending → row.status ≠ .valid →
      DeactivateAuthorization fs db id = .committed db) ∧
    (∀ id db', DeactivateAuthorization fs db id = .committed db' →
      ∀ j, statusOf db' j = statusOf db j ∨
        (j = id ∧ (statusOf db j = some .pending ∨ statusOf db j = some .valid) ∧
          statusOf db' j = some .deactivated)) ∧
    (∀ a db', FinalizeAuthorization fs db a = .committed db' →
      statusIsPending a.status = false ∧ statusOf db a.id = some .pending ∧
      statusOf db' a.id = some a.status ∧
      ∀ j, ¬ j = a.id → statusOf db' j = statusOf db j) ∧
    (∀ a db', UpdatePendingAuthorization fs db a = .committed db' →
      ∀ j, statusOf db' j = statusOf db j) ∧
    (∀ tokens a db' res,
      NewPendingAuthorization fs tokens db a = (.committed db', res) →
      ∀ j, statusOf db j ≠ none → statusOf db' j = statusOf db j) := by
  refine ⟨?_, ?_, ?_, ?_, ?_⟩
  · intro id row table hget h1 h2
    unfold DeactivateAuthorization
    simp only [hget]
    rw [if_pos ⟨h1, h2⟩]
  · intro id db' h
    exact deactivate_statusOf h
  · intro a db' h
    exact finalize_statusOf hwf h
  · intro a db' h
    exact updatePending_statusOf h
  · intro tokens a db' res h
    exact newPending_statusOf h

/-- Concrete check of the amended C5: deactivating an authorization whose
status is already final (invalid) succeeds without writing anything. -/
theorem statusTransitions_claim_witness :
    DeactivateAuthorization noFaults dbC5W "d1" = .committed dbC5W :=
  (statusTransitions_claim noFaults dbC5W ⟨by decide, by decide⟩).1 "d1"
    { id := "d1", registrationID := 1, status := .invalid }
    "pendingAuthorizations" rfl (by decide) (by decide)

end Boulder
